import Mathlib

/-!
# Upstream management of the DNS forwarder: failure counters and selection policies

A shallow embedding of

* `plugin/pkg/proxy/doh_proxy.go` : the `DOHProxy` failure counter
  (`Fails`, `Down`, `IncrementFails`, `ResetFails`), `SetTLSConfig` and `Healthcheck`,
* `plugin/pkg/proxy/type.go` : the transport kinds
  (`stringToTransportType`, `transportTypeFromConn`),
* `plugin/forward/policy.go` : the three selection policies
  (`random`, `roundRobin`, `sequential`).

Conventions.  A Go `uint32` is a `Nat` below `2 ^ 32`, and every `uint32`
operation that can overflow is written with an explicit `% 2 ^ 32`.  A Go
`int` is an `Int`.  A Go slice is a `List`; the `nil` interface value is the
`default` of the element type.  A run-time panic (integer division by zero,
index or slice bound out of range) is the result `none`.
-/

namespace Proxy

/-! ## The data model of `doh_proxy.go` -/

/-- One second, in nanoseconds (`time.Second`). -/
def second : Nat := 1000000000

def defaultDialTimeout : Nat := 3 * second
def defaultTLSHandshakeTimeout : Nat := 5 * second
def defaultResponseHeaderTimeout : Nat := 5 * second
def defaultIdleConnTimeout : Nat := 60 * second
def defaultHttpRequestTimeout : Nat := 10 * second

/-- The part of `tls.Config` the proxy hands around: it is only stored, never inspected.
A `*tls.Config` is an `Option TLSConfig`, with `none` for the `nil` pointer. -/
structure TLSConfig where
  ServerName : String
  deriving DecidableEq, Repr

/-- The fields of `http.Transport` that `doh_proxy.go` sets. -/
structure HTTPTransport where
  DialTimeout : Nat
  TLSHandshakeTimeout : Nat
  ResponseHeaderTimeout : Nat
  IdleConnTimeout : Nat
  TLSClientConfig : Option TLSConfig
  deriving DecidableEq, Repr

/-- Modelled from the spec: the health checker behind the interface `HealthChecker`,
whose file is not among the sources.  Section 4.3 asks that `SetTLSConfig` reaches "the
health-check path", so the checker keeps the TLS config it is handed; the other fields
are the arguments `NewDOHProxy` passes to `NewHealthChecker`. -/
structure HealthChecker where
  proxyName : String
  transport : String
  recursionDesired : Bool
  domain : String
  tlsConfig : Option TLSConfig
  deriving DecidableEq, Repr

/-- Modelled from the spec: `NewHealthChecker(proxyName, trans, recursionDesired, domain)`.
Section 3: a proxy "owns ... one Health Checker ... created at construction".  The result
is an interface value, so an `Option`. -/
def NewHealthChecker (proxyName trans : String) (recursionDesired : Bool) (domain : String) :
    Option HealthChecker :=
  some
    { proxyName := proxyName
      transport := trans
      recursionDesired := recursionDesired
      domain := domain
      tlsConfig := none }

/-- Modelled from the spec: the method `SetTLSConfig` of the health checker stores the
config (section 4.3). -/
def HealthChecker.SetTLSConfig (h : HealthChecker) (cfg : Option TLSConfig) : HealthChecker :=
  { h with tlsConfig := cfg }

/-- The struct `DOHProxy`: `fails` is the `uint32` failure counter; `transport` and
`clientTimeout` are the settings of the `http.Transport` and the `http.Client` it owns;
`health` is the attached health checker, `none` for the `nil` interface value.  The
field `probe` holds an object of `plugin/pkg/up`; the calls made on it are recorded as
`Call.probeDo`. -/
structure DOHProxy where
  fails : Nat
  addr : String
  proxyName : String
  baseURL : String
  transport : HTTPTransport
  clientTimeout : Nat
  readTimeout : Nat
  health : Option HealthChecker
  deriving DecidableEq, Repr

/-- The constructor `NewDOHProxy(proxyName, addr, trans)`. -/
def NewDOHProxy (proxyName addr trans : String) : DOHProxy :=
  let tr : HTTPTransport :=
    { DialTimeout := defaultDialTimeout
      TLSHandshakeTimeout := defaultTLSHandshakeTimeout
      ResponseHeaderTimeout := defaultResponseHeaderTimeout
      IdleConnTimeout := defaultIdleConnTimeout
      TLSClientConfig := none }
  { addr := addr
    fails := 0
    readTimeout := 2 * second
    health := NewHealthChecker proxyName trans true "."
    proxyName := proxyName
    baseURL := "https://" ++ addr
    transport := tr
    clientTimeout := defaultHttpRequestTimeout }

/-- The method `SetTLSConfig`.  `p.health.SetTLSConfig(cfg)` is a method call on an
interface value and panics (`none`) when `health` is `nil`.  `http2.ConfigureTransport`
belongs to `golang.org/x/net/http2`; what it does to the transport is the parameter
`configureTransport`. -/
def DOHProxy.SetTLSConfig (configureTransport : HTTPTransport → HTTPTransport)
    (p : DOHProxy) (cfg : Option TLSConfig) : Option DOHProxy :=
  match p.health with
  | none => none
  | some h =>
    let p1 : DOHProxy := { p with health := some (h.SetTLSConfig cfg) }
    let p2 : DOHProxy := { p1 with transport := { p1.transport with TLSClientConfig := cfg } }
    some { p2 with transport := configureTransport p2.transport }

/-- The closure `func() error { return p.health.Check(p) }` that `Healthcheck` hands to
the probe: it captures the proxy. -/
structure ProbeFunc where
  proxy : DOHProxy
  deriving DecidableEq, Repr

/-- The call the body of the closure makes when the probe runs it: `Check` on the
proxy's health checker with the proxy as argument (`none` when `health` is `nil`). -/
def ProbeFunc.body (f : ProbeFunc) : Option (HealthChecker × DOHProxy) :=
  match f.proxy.health with
  | none => none
  | some h => some (h, f.proxy)

/-- The calls a method makes on its collaborators: `log.Warning(msg)` and
`p.probe.Do(f)`. -/
inductive Call where
  | logWarning (msg : String)
  | probeDo (f : ProbeFunc)
  deriving DecidableEq, Repr

/-- The method `Healthcheck`: the proxy after the call and the calls made, in order. -/
def DOHProxy.Healthcheck (p : DOHProxy) : DOHProxy × List Call :=
  match p.health with
  | none => (p, [Call.logWarning "No healthchecker"])
  | some _ => (p, [Call.probeDo { proxy := p }])

/-- The probes submitted by a list of calls. -/
def probesSubmitted (calls : List Call) : List ProbeFunc :=
  calls.filterMap fun c =>
    match c with
    | Call.probeDo f => some f
    | Call.logWarning _ => none

/-- The method `Fails`: `atomic.LoadUint32(&p.fails)`. -/
def DOHProxy.Fails (p : DOHProxy) : Nat :=
  p.fails

/-- The method `Down`: false when `maxfails == 0`, otherwise `fails > maxfails`. -/
def DOHProxy.Down (p : DOHProxy) (maxfails : Nat) : Bool :=
  if maxfails = 0 then
    false
  else
    let fails := p.fails
    decide (fails > maxfails)

/-- The method `IncrementFails`, run by one caller with no other caller in between:
load the counter, return early when `curVal > curVal+1` in `uint32` arithmetic,
otherwise `atomic.AddUint32(&p.fails, 1)`. -/
def DOHProxy.IncrementFails (p : DOHProxy) : DOHProxy :=
  let curVal := p.fails
  if curVal > (curVal + 1) % 2 ^ 32 then
    p
  else
    { p with fails := (p.fails + 1) % 2 ^ 32 }

/-- The method `ResetFails`: `atomic.StoreUint32(&p.fails, 0)`. -/
def DOHProxy.ResetFails (p : DOHProxy) : DOHProxy :=
  { p with fails := 0 }

/-- The state after `N` sequential calls of `IncrementFails`. -/
def incrementFailsN : Nat → DOHProxy → DOHProxy
  | 0, p => p
  | N + 1, p => incrementFailsN N p.IncrementFails

/-! ### Concurrent callers of `IncrementFails`

Each call is two atomic steps: `atomic.LoadUint32` into the local `curVal`, and then the
guard on `curVal` (local, it reads no shared memory) with `atomic.AddUint32` when the
guard lets it through. -/

/-- Where one caller of `IncrementFails` stands. -/
inductive IncCaller where
  | start
  | loaded (curVal : Nat)
  | finished
  deriving DecidableEq, Repr

/-- The shared counter and the callers in flight. -/
structure IncState where
  fails : Nat
  callers : List IncCaller
  deriving DecidableEq, Repr

/-- One step of caller `t`; a caller that has finished, or does not exist, does nothing. -/
def IncState.step (s : IncState) (t : Nat) : IncState :=
  match s.callers[t]? with
  | some IncCaller.start =>
    { s with callers := s.callers.set t (IncCaller.loaded s.fails) }
  | some (IncCaller.loaded curVal) =>
    if curVal > (curVal + 1) % 2 ^ 32 then
      { s with callers := s.callers.set t IncCaller.finished }
    else
      { fails := (s.fails + 1) % 2 ^ 32
        callers := s.callers.set t IncCaller.finished }
  | _ => s

/-- An interleaving is the list of the callers that take the successive steps. -/
def IncState.run (s : IncState) : List Nat → IncState
  | [] => s
  | t :: rest => (s.step t).run rest

/-- The state in which `n` callers have entered `IncrementFails` on a count `f`. -/
def IncState.init (f n : Nat) : IncState :=
  { fails := f, callers := List.replicate n IncCaller.start }

/-! ## The transport kinds of `type.go` -/

/-- The type `transportType`, an `int`. -/
abbrev transportType := Int

def typeUDP : transportType := 0
def typeTCP : transportType := 1
def typeTLS : transportType := 2
def typeTotalCount : transportType := 3

/-- The function `stringToTransportType`. -/
def stringToTransportType (s : String) : transportType :=
  if s = "udp" then
    typeUDP
  else if s = "tcp" then
    typeTCP
  else if s = "tcp-tls" then
    typeTLS
  else
    typeUDP

/-- The dynamic type of the `net.Conn` inside a pooled connection, as far as the type
assertion `pc.c.Conn.(*net.UDPConn)` can tell it apart. -/
inductive NetConn where
  | UDPConn
  | TCPConn
  | TLSConn
  | nil
  deriving DecidableEq, Repr

/-- Modelled from the spec: the struct `persistConn`, declared outside the sources: a
pooled connection "tagged with last-used timestamp" (section 3). -/
structure persistConn where
  c : NetConn
  used : Nat
  deriving DecidableEq, Repr

/-- Modelled from the spec: the struct `Transport`, declared outside the sources, with
the address, the expiry of idle connections and the TLS configuration that is "active
for that Proxy" (section 4.2); `none` is the `nil` pointer. -/
structure Transport where
  addr : String
  expire : Nat
  tlsConfig : Option TLSConfig
  deriving DecidableEq, Repr

/-- The method `transportTypeFromConn`. -/
def Transport.transportTypeFromConn (t : Transport) (pc : persistConn) : transportType :=
  if pc.c = NetConn.UDPConn then
    typeUDP
  else if t.tlsConfig = none then
    typeTCP
  else
    typeTLS

end Proxy

/-! ## The selection policies of `policy.go` -/

namespace Forward

variable {α : Type}

/-- The slice expression `p[:hi]`: a panic when `hi` exceeds the length (Go checks
against the capacity, taken equal to the length here; `roundRobin.List` only slices at
an index it has just read, so the difference is never reached). -/
def sliceTo (p : List α) (hi : Nat) : Option (List α) :=
  if hi ≤ p.length then some (p.take hi) else none

/-- The slice expression `p[lo:]`: a panic when `lo` exceeds the length. -/
def sliceFrom (p : List α) (lo : Nat) : Option (List α) :=
  if lo ≤ p.length then some (p.drop lo) else none

/-- The struct `roundRobin`: `robin` is the shared `uint32` counter. -/
structure roundRobin where
  robin : Nat
  deriving DecidableEq, Repr

/-- The method `roundRobin.List`, run by one caller with no other caller in between.
The first component is the policy after the call (`atomic.AddUint32(&r.robin, 1)`
has run before anything can panic), the second is the returned slice, or `none`
when the call panics: `% poolLen` with `poolLen == 0`, `p[i]`, `p[:i]`, `p[i+1:]`. -/
def roundRobin_List (r : roundRobin) (p : List α) : roundRobin × Option (List α) :=
  let poolLen := p.length % 2 ^ 32
  let n := (r.robin + 1) % 2 ^ 32
  let r1 : roundRobin := { robin := n }
  if poolLen = 0 then
    (r1, none)
  else
    let i := n % poolLen
    (r1, do
      let x ← p[i]?
      let front ← sliceTo p i
      let back ← sliceFrom p ((i + 1) % 2 ^ 32)
      pure (([x] ++ front) ++ back))

/-- The policy after `k` consecutive sequential calls of `roundRobin.List` on the pool `p`. -/
def roundRobin_after (p : List α) : Nat → roundRobin → roundRobin
  | 0, r => r
  | k + 1, r => roundRobin_after p k (roundRobin_List r p).1

/-- The loop `for i, p1 := range perms { rnd[i] = p[p1] }` of `random.List`, from
position `i` on: a panic when `p1` is not an index of `p` or `i` is not an index of `rnd`. -/
def random_loop (p : List α) : Nat → List Int → List α → Option (List α)
  | _, [], rnd => some rnd
  | i, p1 :: rest, rnd =>
    if 0 ≤ p1 ∧ i < rnd.length then
      match p[p1.toNat]? with
      | some x => random_loop p (i + 1) rest (rnd.set i x)
      | none => none
    else
      none

/-- The method `random.List`.  The random source `rn` lives in `plugin/pkg/rand`, so
what it yields is a parameter: `rnInt` is the value of `rn.Int()` and `rnPerm n` the
slice `rn.Perm(n)`.  `make([]proxy.IProxy, len(p))` is a slice of `nil` values. -/
def random_List [Inhabited α] (rnInt : Int) (rnPerm : Nat → List Int) (p : List α) :
    Option (List α) :=
  match p.length with
  | 1 => some p
  | 2 =>
    if rnInt.tmod 2 = 0 then
      do
        let x ← p[1]?
        let y ← p[0]?
        pure [x, y]
    else
      some p
  | n => random_loop p 0 (rnPerm n) (List.replicate n default)

/-- The method `sequential.List`. -/
def sequential_List (p : List α) : List α :=
  p

end Forward

/-! ## Theorems about the failure counter -/

namespace Proxy

theorem incrementFails_fails (p : DOHProxy) (h : p.fails < 2 ^ 32) :
    p.IncrementFails.fails = min (p.fails + 1) (2 ^ 32 - 1) := by
  unfold DOHProxy.IncrementFails
  by_cases hmax : p.fails = 2 ^ 32 - 1
  · simp [hmax]
  · have hlt : p.fails + 1 < 2 ^ 32 := by omega
    have hmod : (p.fails + 1) % 2 ^ 32 = p.fails + 1 := Nat.mod_eq_of_lt hlt
    simp only [hmod]
    have hng : ¬ p.fails > p.fails + 1 := by omega
    simp only [hng, if_false]
    omega

theorem incrementFailsN_fails (N : Nat) (p : DOHProxy) (h : p.fails < 2 ^ 32) :
    (incrementFailsN N p).fails = min (p.fails + N) (2 ^ 32 - 1) := by
  induction N generalizing p with
  | zero =>
    simp only [incrementFailsN]
    omega
  | succ N ih =>
    have hstep := incrementFails_fails p h
    have hlt : p.IncrementFails.fails < 2 ^ 32 := by omega
    simp only [incrementFailsN]
    rw [ih p.IncrementFails hlt, hstep]
    omega

/-- C1: `Down(maxfails)` is true exactly when `maxfails > 0` and the failure count is
strictly greater than `maxfails`; so `Down(0)` is false for every count, and
`Down(maxfails)` is false when the count equals `maxfails`. -/
theorem down_iff (p : DOHProxy) (maxfails : Nat) :
    (p.Down maxfails = true ↔ (maxfails > 0 ∧ p.Fails > maxfails))
      ∧ p.Down 0 = false
      ∧ p.Down p.Fails = false := by
  refine ⟨?_, ?_, ?_⟩
  · unfold DOHProxy.Down DOHProxy.Fails
    by_cases h0 : maxfails = 0
    · simp [h0]
    · simp [h0]
      omega
  · simp [DOHProxy.Down]
  · unfold DOHProxy.Down DOHProxy.Fails
    by_cases h0 : p.fails = 0 <;> simp [h0]

/-- C2: for a `uint32` failure count `f`, one sequential `IncrementFails` leaves `f + 1`
when `f < 2^32 - 1` and leaves `2^32 - 1` unchanged: the counter saturates, it does not
wrap to zero, and it never decreases. -/
theorem incrementFails_saturates (p : DOHProxy) (h : p.Fails < 2 ^ 32) :
    (p.Fails < 2 ^ 32 - 1 → p.IncrementFails.Fails = p.Fails + 1)
      ∧ (p.Fails = 2 ^ 32 - 1 → p.IncrementFails.Fails = 2 ^ 32 - 1)
      ∧ p.Fails ≤ p.IncrementFails.Fails
      ∧ p.IncrementFails.Fails < 2 ^ 32 := by
  have hstep := incrementFails_fails p h
  simp only [DOHProxy.Fails] at *
  refine ⟨?_, ?_, ?_, ?_⟩ <;> omega

theorem incrementFails_saturates_witness :
    ({ NewDOHProxy "a" "dns.example:443" "tcp" with fails := 4294967295 } : DOHProxy).Fails
        < 2 ^ 32
      ∧ ({ NewDOHProxy "a" "dns.example:443" "tcp" with
            fails := 4294967295 } : DOHProxy).IncrementFails.Fails = 2 ^ 32 - 1
      ∧ (NewDOHProxy "a" "dns.example:443" "tcp").IncrementFails.Fails = 1 :=
  ⟨by decide,
    (incrementFails_saturates
      { NewDOHProxy "a" "dns.example:443" "tcp" with fails := 4294967295 } (by decide)).2.1
      (by decide),
    (incrementFails_saturates (NewDOHProxy "a" "dns.example:443" "tcp") (by decide)).1
      (by decide)⟩

/-- C3: starting from failure count 0 (a newly constructed proxy, or any proxy right
after `ResetFails`), `N` sequential `IncrementFails` calls leave `Fails() = N` when
`N ≤ 2^32 - 1` and `Fails() = 2^32 - 1` for every larger `N`. -/
theorem incrementFailsN_from_zero (N : Nat) :
    (∀ proxyName addr trans : String,
        (incrementFailsN N (NewDOHProxy proxyName addr trans)).Fails
          = if N ≤ 2 ^ 32 - 1 then N else 2 ^ 32 - 1)
      ∧ (∀ p : DOHProxy,
        (incrementFailsN N p.ResetFails).Fails
          = if N ≤ 2 ^ 32 - 1 then N else 2 ^ 32 - 1) := by
  refine ⟨?_, ?_⟩
  · intro proxyName addr trans
    have h0 : (NewDOHProxy proxyName addr trans).fails = 0 := rfl
    have := incrementFailsN_fails N (NewDOHProxy proxyName addr trans) (by rw [h0]; omega)
    simp only [DOHProxy.Fails]
    rw [this, h0]
    split <;> omega
  · intro p
    have h0 : p.ResetFails.fails = 0 := rfl
    have := incrementFailsN_fails N p.ResetFails (by rw [h0]; omega)
    simp only [DOHProxy.Fails]
    rw [this, h0]
    split <;> omega

/-- C4: after `ResetFails` the failure count is exactly 0, whatever it was before, and
an immediately following `Down(maxfails)` is false for every `maxfails ≥ 0`. -/
theorem resetFails_then_down (p : DOHProxy) (maxfails : Nat) :
    p.ResetFails.Fails = 0 ∧ p.ResetFails.Down maxfails = false := by
  refine ⟨rfl, ?_⟩
  unfold DOHProxy.Down DOHProxy.ResetFails
  by_cases h0 : maxfails = 0 <;> simp [h0]

end Proxy

/-! ## Theorems about the selection policies -/

namespace Forward

variable {α : Type}

theorem roundRobin_List_robin (r : roundRobin) (p : List α) :
    (roundRobin_List r p).1.robin = (r.robin + 1) % 2 ^ 32 := by
  unfold roundRobin_List
  simp only
  split <;> rfl

theorem roundRobin_index_lt (c n : Nat) (hpl : n % 2 ^ 32 ≠ 0) :
    c % 2 ^ 32 % (n % 2 ^ 32) < n := by
  have h1 : c % 2 ^ 32 % (n % 2 ^ 32) < n % 2 ^ 32 := Nat.mod_lt _ (Nat.pos_of_ne_zero hpl)
  have h2 : n % 2 ^ 32 ≤ n := Nat.mod_le _ _
  omega

theorem roundRobin_List_eq_trunc (r : roundRobin) (p : List α) (i : Nat)
    (hpl : p.length % 2 ^ 32 ≠ 0)
    (hi : i = (r.robin + 1) % 2 ^ 32 % (p.length % 2 ^ 32)) (h : i < p.length) :
    (roundRobin_List r p).2 = some (p[i] :: (p.take i ++ p.drop (i + 1))) := by
  have hlt : i < p.length % 2 ^ 32 := by
    rw [hi]
    exact Nat.mod_lt _ (Nat.pos_of_ne_zero hpl)
  have hpow : p.length % 2 ^ 32 < 2 ^ 32 := Nat.mod_lt _ (by decide)
  have hi1 : (i + 1) % 2 ^ 32 = i + 1 := Nat.mod_eq_of_lt (by omega)
  unfold roundRobin_List
  simp only [hpl, if_false, ← hi, hi1]
  have hget : p[i]? = some p[i] := List.getElem?_eq_getElem h
  simp [hget, sliceTo, sliceFrom, Nat.le_of_lt h, Nat.succ_le_of_lt h]

theorem roundRobin_List_eq (r : roundRobin) (p : List α) (i : Nat)
    (hlt : p.length < 2 ^ 32) (hi : i = (r.robin + 1) % 2 ^ 32 % p.length)
    (h : i < p.length) :
    (roundRobin_List r p).2 = some (p[i] :: (p.take i ++ p.drop (i + 1))) := by
  have hlen : p.length % 2 ^ 32 = p.length := Nat.mod_eq_of_lt hlt
  exact roundRobin_List_eq_trunc r p i (by omega) (by rw [hlen]; exact hi) h

theorem roundRobin_List_panics (r : roundRobin) (p : List α) (h : p.length % 2 ^ 32 = 0) :
    (roundRobin_List r p).2 = none := by
  unfold roundRobin_List
  simp only [h, if_true]

theorem moveToFront_perm (p : List α) (i : Nat) (h : i < p.length) :
    (p[i] :: (p.take i ++ p.drop (i + 1))).Perm p := by
  have hsplit : p = p.take i ++ p[i] :: p.drop (i + 1) := by
    rw [← List.drop_eq_getElem_cons h, List.take_append_drop]
  exact (List.perm_middle.symm.trans (List.Perm.of_eq hsplit.symm))

theorem moveToFront_getElem? (p : List α) (i j : Nat) (h : i < p.length) :
    (p[i] :: (p.take i ++ p.drop (i + 1)))[j]?
      = if j = 0 then p[i]? else if j ≤ i then p[j - 1]? else p[j]? := by
  cases j with
  | zero => simp [List.getElem?_eq_getElem h]
  | succ j =>
    simp only [List.getElem?_cons_succ, Nat.succ_ne_zero, if_false, Nat.add_sub_cancel]
    by_cases hj : j + 1 ≤ i
    · simp only [hj, if_true]
      rw [List.getElem?_append_left (by simp; omega)]
      rw [List.getElem?_take_of_lt (by omega)]
    · simp only [hj, if_false]
      rw [List.getElem?_append_right (by simp; omega)]
      simp only [List.length_take, List.getElem?_drop]
      congr 1
      omega

theorem roundRobin_after_robin (p : List α) (k : Nat) (r : roundRobin) :
    (roundRobin_after p k r).robin = if k = 0 then r.robin else (r.robin + k) % 2 ^ 32 := by
  induction k generalizing r with
  | zero => simp [roundRobin_after]
  | succ k ih =>
    simp only [roundRobin_after]
    rw [ih, roundRobin_List_robin]
    by_cases hk : k = 0
    · simp [hk]
    · simp only [hk, if_false, Nat.succ_ne_zero]
      omega

theorem random_loop_eq [Inhabited α] (p : List α) (perms : List Int) :
    ∀ (i : Nat) (rnd : List α),
      (∀ x ∈ perms, 0 ≤ x ∧ x.toNat < p.length) → i + perms.length ≤ rnd.length →
      random_loop p i perms rnd
        = some (rnd.take i ++ perms.map (fun x => p[x.toNat]?.getD default)
            ++ rnd.drop (i + perms.length)) := by
  induction perms with
  | nil =>
    intro i rnd _ _
    simp [random_loop]
  | cons p1 rest ih =>
    intro i rnd hval hlen
    have h1 := hval p1 (List.mem_cons_self _ _)
    have hrest : ∀ x ∈ rest, 0 ≤ x ∧ x.toNat < p.length :=
      fun x hx => hval x (List.mem_cons_of_mem _ hx)
    simp only [List.length_cons] at hlen
    have hi : i < rnd.length := by omega
    have hget : p[p1.toNat]? = some p[p1.toNat] := List.getElem?_eq_getElem h1.2
    unfold random_loop
    simp only [h1.1, hi, and_self, if_true, hget]
    rw [ih (i + 1) (rnd.set i p[p1.toNat]) hrest (by simp; omega)]
    congr 1
    have htake : (rnd.set i p[p1.toNat]).take (i + 1) = rnd.take i ++ [p[p1.toNat]] := by
      rw [List.take_succ, List.set_take, List.set_eq_of_length_le (by simp),
        List.getElem?_set_self hi]
      rfl
    have hdrop : (rnd.set i p[p1.toNat]).drop (i + 1 + rest.length)
        = rnd.drop (i + (rest.length + 1)) := by
      rw [List.drop_set_of_lt _ _ (by omega)]
      congr 1
      omega
    rw [htake, hdrop]
    simp [hget]

theorem map_getD_range [Inhabited α] (p : List α) :
    ((List.range p.length).map Int.ofNat).map (fun x => p[x.toNat]?.getD default) = p := by
  apply List.ext_getElem?
  intro j
  by_cases hj : j < p.length
  · simp [List.getElem?_range hj, hj]
  · have h1 : p[j]? = none := List.getElem?_eq_none (by omega)
    simp [h1]
    omega

theorem perms_valid (n : Nat) (perms : List Int)
    (hperm : perms.Perm ((List.range n).map Int.ofNat)) :
    ∀ x ∈ perms, ∃ k, x = Int.ofNat k ∧ k < n := by
  intro x hx
  have hx2 := hperm.mem_iff.mp hx
  simp only [List.mem_map, List.mem_range] at hx2
  obtain ⟨k, hk, rfl⟩ := hx2
  exact ⟨k, rfl, hk⟩

theorem random_loop_full [Inhabited α] (p : List α) (perms : List Int)
    (hperm : perms.Perm ((List.range p.length).map Int.ofNat)) :
    random_loop p 0 perms (List.replicate p.length default)
      = some (perms.map (fun x => p[x.toNat]?.getD default)) := by
  have hlen : perms.length = p.length := by simpa using hperm.length_eq
  have hval : ∀ x ∈ perms, 0 ≤ x ∧ x.toNat < p.length := by
    intro x hx
    obtain ⟨k, rfl, hk⟩ := perms_valid p.length perms hperm x hx
    exact ⟨Int.ofNat_nonneg k, by simpa using hk⟩
  rw [random_loop_eq p perms 0 _ hval (by simp [hlen])]
  simp [hlen]

/-- C5 (as stated, refuted): for the pool `[A,B,C]` and counter 0 the start index is 1
and the call returns `[B,A,C]`, not the rotation `[B,C,A]`: at position 1 the output
holds `p[0]`, not `p[(1 + 1) % 3]`. -/
theorem roundRobin_List_not_rotation :
    (roundRobin_List { robin := 0 } ["A", "B", "C"]).2 = some ["B", "A", "C"]
      ∧ ((0 + 1) % 2 ^ 32) % ["A", "B", "C"].length = 1
      ∧ ((roundRobin_List { robin := 0 } ["A", "B", "C"]).2.bind fun out => out[1]?)
          ≠ ["A", "B", "C"][(1 + 1) % 3]? := by
  decide

/-- C5 (amended): for a non-empty pool `p` of length `n < 2^32` and a counter `c`,
`roundRobin.List(p)` sets the counter to `(c+1) mod 2^32` and returns `p` with the
element at index `i = ((c+1) mod 2^32) mod n` moved to the front and all other elements
kept in their original order: `output[0] = p[i]`, `output[j] = p[j-1]` for `1 ≤ j ≤ i`
and `output[j] = p[j]` for `i < j < n`. -/
theorem roundRobin_List_moveToFront (p : List α) (c : Nat)
    (hn : 0 < p.length) (hlt : p.length < 2 ^ 32) :
    (roundRobin_List { robin := c } p).1 = { robin := (c + 1) % 2 ^ 32 }
      ∧ ∃ (i : Nat) (hi : i < p.length) (out : List α),
          i = ((c + 1) % 2 ^ 32) % p.length
            ∧ (roundRobin_List { robin := c } p).2 = some out
            ∧ out = p[i] :: (p.take i ++ p.drop (i + 1))
            ∧ ∀ j, j < p.length →
                out[j]? = if j = 0 then p[i]? else if j ≤ i then p[j - 1]? else p[j]? := by
  have hi : ((c + 1) % 2 ^ 32) % p.length < p.length := Nat.mod_lt _ hn
  refine ⟨?_, ((c + 1) % 2 ^ 32) % p.length, hi, _, rfl,
    roundRobin_List_eq { robin := c } p _ hlt rfl hi, rfl, ?_⟩
  · have h := roundRobin_List_robin { robin := c } p
    cases hr : (roundRobin_List { robin := c } p).1 with
    | mk robin =>
      rw [hr] at h
      simp only at h
      rw [h]
  · intro j _
    exact moveToFront_getElem? p _ j hi

theorem roundRobin_List_moveToFront_witness :
    0 < ["A", "B", "C", "D"].length ∧ ["A", "B", "C", "D"].length < 2 ^ 32
      ∧ (roundRobin_List { robin := 0 } ["A", "B", "C", "D"]).1 = { robin := 1 } :=
  ⟨by decide, by decide,
    (roundRobin_List_moveToFront ["A", "B", "C", "D"] 0 (by decide) (by decide)).1⟩

/-- C6 (as stated, refuted): on the pool `[0, 1, ..., 2^32]` of length `2^32 + 1` the
first call of a fresh policy (`k = 1`) returns a list whose first element is `p[0] = 0`,
not `p[1 mod n] = p[1] = 1`: `uint32(len(p))` is 1, so the start index is `1 % 1 = 0`. -/
theorem roundRobin_first_call_truncated :
    ((roundRobin_List (roundRobin_after (List.range (2 ^ 32 + 1)) (1 - 1) { robin := 0 })
          (List.range (2 ^ 32 + 1))).2.bind fun out => out.head?) = some 0
      ∧ (List.range (2 ^ 32 + 1))[1 % (List.range (2 ^ 32 + 1)).length]? = some 1 := by
  have hlen : (List.range (2 ^ 32 + 1)).length = 2 ^ 32 + 1 := List.length_range _
  have hpl : (List.range (2 ^ 32 + 1)).length % 2 ^ 32 ≠ 0 := by
    rw [hlen]
    decide
  have h0 : 0 < (List.range (2 ^ 32 + 1)).length := by
    rw [hlen]
    decide
  have hi : 0 = (({ robin := 0 } : roundRobin).robin + 1) % 2 ^ 32
      % ((List.range (2 ^ 32 + 1)).length % 2 ^ 32) := by
    rw [hlen]
    decide
  refine ⟨?_, ?_⟩
  · show ((roundRobin_List { robin := 0 } (List.range (2 ^ 32 + 1))).2.bind
      fun out => out.head?) = some 0
    rw [roundRobin_List_eq_trunc { robin := 0 } (List.range (2 ^ 32 + 1)) 0 hpl hi h0]
    simp only [Option.some_bind, List.head?_cons, List.getElem_range]
  · rw [hlen, List.getElem?_range (by decide)]
    rfl

/-- C6 (amended): from a fresh policy (counter 0) and a non-empty pool `p` of length
`n < 2^32`, the `k`-th consecutive sequential `List` call, `1 ≤ k < 2^32`, finds the
counter at `k - 1`, leaves it at `k` (one more), and returns a list whose first element
is `p[k mod n]`. -/
theorem roundRobin_kth_call (p : List α) (k : Nat)
    (hn : 0 < p.length) (hlt : p.length < 2 ^ 32) (hk1 : 1 ≤ k) (hk : k < 2 ^ 32) :
    (roundRobin_after p (k - 1) { robin := 0 }).robin = k - 1
      ∧ (roundRobin_List (roundRobin_after p (k - 1) { robin := 0 }) p).1.robin
          = (roundRobin_after p (k - 1) { robin := 0 }).robin + 1
      ∧ (roundRobin_after p k { robin := 0 }).robin = k
      ∧ ∃ out, (roundRobin_List (roundRobin_after p (k - 1) { robin := 0 }) p).2 = some out
          ∧ out.head? = p[k % p.length]? := by
  have hprev : (roundRobin_after p (k - 1) { robin := 0 }).robin = k - 1 := by
    rw [roundRobin_after_robin]
    dsimp only
    split
    · omega
    · simp only [Nat.zero_add]
      exact Nat.mod_eq_of_lt (by omega)
  have hcur : (roundRobin_after p k { robin := 0 }).robin = k := by
    rw [roundRobin_after_robin]
    dsimp only
    split
    · omega
    · simp only [Nat.zero_add]
      exact Nat.mod_eq_of_lt hk
  have hmod : (k - 1 + 1) % 2 ^ 32 = k := by
    rw [Nat.sub_add_cancel hk1]
    exact Nat.mod_eq_of_lt hk
  have hi : k % p.length < p.length := Nat.mod_lt _ hn
  refine ⟨hprev, ?_, hcur, _, roundRobin_List_eq _ p (k % p.length) hlt ?_ hi, ?_⟩
  · rw [roundRobin_List_robin, hprev, hmod]
    omega
  · rw [hprev, hmod]
  · simp [List.getElem?_eq_getElem hi]

theorem roundRobin_kth_call_witness :
    (0 < ["A", "B", "C"].length ∧ ["A", "B", "C"].length < 2 ^ 32 ∧ 1 ≤ 3 ∧ 3 < 2 ^ 32)
      ∧ (∃ out, (roundRobin_List (roundRobin_after ["A", "B", "C"] 0 { robin := 0 })
            ["A", "B", "C"]).2 = some out
          ∧ out.head? = some "B")
      ∧ (∃ out, (roundRobin_List (roundRobin_after ["A", "B", "C"] 1 { robin := 0 })
            ["A", "B", "C"]).2 = some out
          ∧ out.head? = some "C")
      ∧ ∃ out, (roundRobin_List (roundRobin_after ["A", "B", "C"] 2 { robin := 0 })
            ["A", "B", "C"]).2 = some out
          ∧ out.head? = some "A" :=
  ⟨by decide,
    (roundRobin_kth_call ["A", "B", "C"] 1 (by decide) (by decide) (by decide)
      (by decide)).2.2.2,
    (roundRobin_kth_call ["A", "B", "C"] 2 (by decide) (by decide) (by decide)
      (by decide)).2.2.2,
    (roundRobin_kth_call ["A", "B", "C"] 3 (by decide) (by decide) (by decide)
      (by decide)).2.2.2⟩

/-- C7 (as stated, refuted): on a pool of `2^32` entries `uint32(len(p))` is 0 and the
call panics on `% poolLen`, so it returns no list at all. -/
theorem roundRobin_List_wrapped_length_panics :
    (List.replicate (2 ^ 32) "A").length = 2 ^ 32
      ∧ (roundRobin_List { robin := 0 } (List.replicate (2 ^ 32) "A")).2 = none := by
  have hlen : (List.replicate (2 ^ 32) "A").length = 2 ^ 32 := List.length_replicate _ _
  refine ⟨hlen, roundRobin_List_panics _ _ ?_⟩
  rw [hlen]
  decide

/-- C7 (amended): for every pool `p` whose length is not a multiple of `2^32` (so for
every non-empty pool of fewer than `2^32` proxies) and every counter value,
`roundRobin.List(p)` returns a list of the same length as `p` that is a permutation of
`p`: no element is dropped and none is duplicated. -/
theorem roundRobin_List_perm (r : roundRobin) (p : List α)
    (hpl : p.length % 2 ^ 32 ≠ 0) :
    ∃ out, (roundRobin_List r p).2 = some out ∧ out.length = p.length ∧ out.Perm p := by
  have hi := roundRobin_index_lt (r.robin + 1) p.length hpl
  have hperm := moveToFront_perm p _ hi
  exact ⟨_, roundRobin_List_eq_trunc r p _ hpl rfl hi, hperm.length_eq, hperm⟩

theorem roundRobin_List_perm_witness :
    [10, 20, 30].length % 2 ^ 32 ≠ 0
      ∧ ∃ out, (roundRobin_List { robin := 4294967295 } [10, 20, 30]).2 = some out
          ∧ out.length = [10, 20, 30].length ∧ out.Perm [10, 20, 30] :=
  ⟨by decide, roundRobin_List_perm { robin := 4294967295 } [10, 20, 30] (by decide)⟩

/-- C8: when `rn.Perm(n)` is a permutation of `0 .. n-1` for `n = len(p)`,
`random.List(p)` returns, for a pool of any length, a list of the same length that is a
permutation of `p`; and outside the two short cases (length 1 and 2) the output element
at every index `i < n` is `p[perm[i]]`. -/
theorem random_List_perm [Inhabited α] (rnInt : Int) (rnPerm : Nat → List Int) (p : List α)
    (hperm : (rnPerm p.length).Perm ((List.range p.length).map Int.ofNat)) :
    ∃ out, random_List rnInt rnPerm p = some out ∧ out.length = p.length ∧ out.Perm p
      ∧ (p.length ≠ 1 → p.length ≠ 2 →
          ∀ i, i < p.length →
            ∃ k, (rnPerm p.length)[i]? = some (Int.ofNat k) ∧ k < p.length
              ∧ out[i]? = p[k]?) := by
  by_cases h1 : p.length = 1
  · refine ⟨p, ?_, rfl, List.Perm.refl p, fun h => absurd h1 h⟩
    unfold random_List
    rw [h1]
  · by_cases h2 : p.length = 2
    · match p, h2 with
      | [a, b], _ =>
        by_cases hr : rnInt.tmod 2 = 0
        · refine ⟨[b, a], ?_, rfl, List.Perm.swap a b [], fun _ h => absurd rfl h⟩
          simp [random_List, hr]
        · refine ⟨[a, b], ?_, rfl, List.Perm.refl _, fun _ h => absurd rfl h⟩
          simp [random_List, hr]
    · have hfull := random_loop_full p (rnPerm p.length) hperm
      have hout : random_List rnInt rnPerm p
          = some ((rnPerm p.length).map (fun x => p[x.toNat]?.getD default)) := by
        rw [← hfull]
        unfold random_List
        split
        · rename_i h; exact absurd h h1
        · rename_i h; exact absurd h h2
        · rfl
      have hlen : (rnPerm p.length).length = p.length := by simpa using hperm.length_eq
      refine ⟨_, hout, by simp [hlen], ?_, ?_⟩
      · have hmap := hperm.map (fun x => p[x.toNat]?.getD default)
        rw [map_getD_range] at hmap
        exact hmap
      · intro _ _ i hi
        have hi2 : i < (rnPerm p.length).length := by omega
        obtain ⟨k, hk, hkn⟩ := perms_valid p.length _ hperm _ (List.getElem_mem hi2)
        refine ⟨k, ?_, hkn, ?_⟩
        · rw [List.getElem?_eq_getElem hi2, hk]
        · rw [List.getElem?_map, List.getElem?_eq_getElem hi2, hk]
          simp [List.getElem?_eq_getElem hkn]

theorem random_List_perm_witness :
    ((fun n => if n = 3 then [2, 0, 1] else ([] : List Int)) ["A", "B", "C"].length).Perm
        ((List.range ["A", "B", "C"].length).map Int.ofNat)
      ∧ ∃ out, random_List 7 (fun n => if n = 3 then [2, 0, 1] else []) ["A", "B", "C"]
            = some out
          ∧ out.length = 3 ∧ out.Perm ["A", "B", "C"] :=
  ⟨by decide,
    let ⟨out, h1, h2, h3, _⟩ :=
      random_List_perm 7 (fun n => if n = 3 then [2, 0, 1] else []) ["A", "B", "C"] (by decide)
    ⟨out, h1, h2, h3⟩⟩

/-- C9: `sequential.List(p)` is `p` itself for a pool of any length, the empty pool
included: same length, same elements, same order; the policy has no state, so the
result does not depend on earlier calls. -/
theorem sequential_List_id (p : List α) :
    sequential_List p = p ∧ (sequential_List p).length = p.length
      ∧ ∀ i : Nat, (sequential_List p)[i]? = p[i]? :=
  ⟨rfl, rfl, fun _ => rfl⟩

/-- C10 (the code at the failing input): on the empty pool `roundRobin.List` panics
for every counter value (`poolLen` is 0 and `% poolLen` divides by zero), after the
counter has been incremented, while `random.List` and `sequential.List` return the
empty pool. -/
theorem roundRobin_List_empty_panics (r : roundRobin) (rnInt : Int) :
    roundRobin_List r ([] : List String) = ({ robin := (r.robin + 1) % 2 ^ 32 }, none)
      ∧ random_List rnInt (fun n => (List.range n).map Int.ofNat) ([] : List String) = some []
      ∧ sequential_List ([] : List String) = [] :=
  ⟨rfl, rfl, rfl⟩

end Forward

/-! ## Theorems about the short cases of `random.List` and the round-robin cycle -/

namespace Forward

variable {α : Type}

theorem tmod_two_eq_zero_iff_even (n : Int) : n.tmod 2 = 0 ↔ Even n := by
  rw [even_iff_two_dvd]
  exact Int.dvd_iff_tmod_eq_zero.symm

theorem roundRobin_List_fst (r : roundRobin) (p : List α) :
    (roundRobin_List r p).1 = { robin := (r.robin + 1) % 2 ^ 32 } := by
  unfold roundRobin_List
  simp only
  split <;> rfl

/-- C11: on a pool of length 1 `random.List` returns the pool unchanged whatever the
random source yields; on a pool `[a,b]` it returns `[b,a]` when the drawn integer is
even and `[a,b]` when it is odd, so the output is one of these two orderings, and in
neither case does the result depend on `Perm`. -/
theorem random_List_short [Inhabited α] (rnInt : Int) (rnPerm : Nat → List Int) (a b : α) :
    random_List rnInt rnPerm [a] = some [a]
      ∧ (Even rnInt → random_List rnInt rnPerm [a, b] = some [b, a])
      ∧ (Odd rnInt → random_List rnInt rnPerm [a, b] = some [a, b])
      ∧ (random_List rnInt rnPerm [a, b] = some [b, a]
          ∨ random_List rnInt rnPerm [a, b] = some [a, b])
      ∧ ∀ rnPerm2 : Nat → List Int,
          random_List rnInt rnPerm2 [a] = random_List rnInt rnPerm [a]
            ∧ random_List rnInt rnPerm2 [a, b] = random_List rnInt rnPerm [a, b] := by
  have heven : Even rnInt → random_List rnInt rnPerm [a, b] = some [b, a] := by
    intro h
    have ht := (tmod_two_eq_zero_iff_even rnInt).mpr h
    simp [random_List, ht]
  have hodd : Odd rnInt → random_List rnInt rnPerm [a, b] = some [a, b] := by
    intro h
    have ht : ¬ rnInt.tmod 2 = 0 := fun h0 =>
      (Int.not_even_iff_odd.mpr h) ((tmod_two_eq_zero_iff_even rnInt).mp h0)
    simp [random_List, ht]
  refine ⟨rfl, heven, hodd, ?_, fun rnPerm2 => ⟨rfl, rfl⟩⟩
  rcases Int.even_or_odd rnInt with h | h
  · exact Or.inl (heven h)
  · exact Or.inr (hodd h)

theorem random_List_short_witness :
    Even (6 : Int) ∧ Odd (7 : Int) ∧ Odd (-3 : Int)
      ∧ random_List 6 (fun _ => []) ["A", "B"] = some ["B", "A"]
      ∧ random_List 7 (fun _ => []) ["A", "B"] = some ["A", "B"]
      ∧ random_List (-3) (fun _ => []) ["A", "B"] = some ["A", "B"] :=
  ⟨by decide, by decide, by decide,
    (random_List_short 6 (fun _ => []) "A" "B").2.1 (by decide),
    (random_List_short 7 (fun _ => []) "A" "B").2.2.1 (by decide),
    (random_List_short (-3) (fun _ => []) "A" "B").2.2.1 (by decide)⟩

/-- C18 (as stated, refuted): on the pool `[0, 1, ..., 2^32]` of length `n = 2^32 + 1`
and counter `c = 5` the claimed start index is `((c mod n) + 1) mod n = 6`, where the
pool holds 6, but the call starts at index 0 and returns a list headed by `p[0] = 0`:
`uint32(len(p))` is 1. -/
theorem roundRobin_next_start_truncated :
    ((5 % (List.range (2 ^ 32 + 1)).length) + 1) % (List.range (2 ^ 32 + 1)).length = 6
      ∧ (List.range (2 ^ 32 + 1))[6]? = some 6
      ∧ ((roundRobin_List { robin := 5 } (List.range (2 ^ 32 + 1))).2.bind
          fun out => out.head?) = some 0 := by
  have hlen : (List.range (2 ^ 32 + 1)).length = 2 ^ 32 + 1 := List.length_range _
  have hpl : (List.range (2 ^ 32 + 1)).length % 2 ^ 32 ≠ 0 := by
    rw [hlen]
    decide
  have h0 : 0 < (List.range (2 ^ 32 + 1)).length := by
    rw [hlen]
    decide
  have hi : 0 = (({ robin := 5 } : roundRobin).robin + 1) % 2 ^ 32
      % ((List.range (2 ^ 32 + 1)).length % 2 ^ 32) := by
    rw [hlen]
    decide
  refine ⟨?_, ?_, ?_⟩
  · rw [hlen]
    decide
  · rw [List.getElem?_range (by decide)]
  · rw [roundRobin_List_eq_trunc { robin := 5 } (List.range (2 ^ 32 + 1)) 0 hpl hi h0]
    simp only [Option.some_bind, List.head?_cons, List.getElem_range]

/-- C18 (amended): for a non-empty pool of length `n < 2^32` and a `uint32` counter `c`:
when `c ≠ 2^32 - 1` the next `List` call moves the counter to `c + 1` and starts at index
`((c mod n) + 1) mod n`, one position after `c mod n`; when `c = 2^32 - 1` the counter
wraps to 0 and the call starts at index 0.  That index is one position after the
previous start index `(2^32 - 1) mod n` exactly when `n` divides `2^32`, and it equals
the previous start index when `n` divides `2^32 - 1`. -/
theorem roundRobin_next_start (p : List α) (c : Nat)
    (hn : 0 < p.length) (hlt : p.length < 2 ^ 32) (hc : c < 2 ^ 32) :
    (c ≠ 2 ^ 32 - 1 →
        ∃ (i : Nat) (hi : i < p.length), i = ((c % p.length) + 1) % p.length
          ∧ roundRobin_List { robin := c } p
              = ({ robin := c + 1 }, some (p[i] :: (p.take i ++ p.drop (i + 1)))))
      ∧ (c = 2 ^ 32 - 1 →
          roundRobin_List { robin := c } p
              = ({ robin := 0 }, some (p[0] :: (p.take 0 ++ p.drop (0 + 1))))
            ∧ ((((2 ^ 32 - 1) % p.length) + 1) % p.length = 0 ↔ p.length ∣ 2 ^ 32)
            ∧ (p.length ∣ 2 ^ 32 - 1 → (2 ^ 32 - 1) % p.length = 0)) := by
  refine ⟨?_, ?_⟩
  · intro hne
    have hmod : (c + 1) % 2 ^ 32 = c + 1 := Nat.mod_eq_of_lt (by omega)
    have hidx : ((c % p.length) + 1) % p.length = (c + 1) % 2 ^ 32 % p.length := by
      rw [hmod, Nat.mod_add_mod]
    have hi : ((c % p.length) + 1) % p.length < p.length := Nat.mod_lt _ hn
    refine ⟨_, hi, rfl, Prod.ext ?_ ?_⟩
    · rw [roundRobin_List_fst]
      simp only [hmod]
    · exact roundRobin_List_eq { robin := c } p _ hlt hidx hi
  · intro hmax
    subst hmax
    refine ⟨Prod.ext ?_ ?_, ?_, ?_⟩
    · rw [roundRobin_List_fst]
      rfl
    · exact roundRobin_List_eq { robin := 2 ^ 32 - 1 } p 0 hlt
        (by simp) hn
    · rw [Nat.mod_add_mod]
      exact (Nat.dvd_iff_mod_eq_zero ..).symm
    · intro hdvd
      exact Nat.mod_eq_zero_of_dvd hdvd

theorem roundRobin_next_start_witness :
    (0 < ["A", "B", "C"].length ∧ ["A", "B", "C"].length < 2 ^ 32 ∧ 4294967295 < 2 ^ 32
        ∧ ["A", "B", "C"].length ∣ 2 ^ 32 - 1)
      ∧ roundRobin_List { robin := 4294967295 } ["A", "B", "C"]
          = ({ robin := 0 }, some ["A", "B", "C"])
      ∧ roundRobin_List { robin := 4294967294 } ["A", "B", "C"]
          = ({ robin := 4294967295 }, some ["A", "B", "C"])
      ∧ ∃ (i : Nat) (hi : i < ["A", "B", "C"].length), i = ((4 % 3) + 1) % 3
          ∧ roundRobin_List { robin := 4 } ["A", "B", "C"]
              = ({ robin := 4 + 1 },
                  some (["A", "B", "C"][i] :: (["A", "B", "C"].take i
                    ++ ["A", "B", "C"].drop (i + 1)))) :=
  ⟨by decide,
    ((roundRobin_next_start ["A", "B", "C"] 4294967295 (by decide) (by decide)
      (by decide)).2 (by decide)).1,
    by decide,
    (roundRobin_next_start ["A", "B", "C"] 4 (by decide) (by decide) (by decide)).1
      (by decide)⟩

end Forward

/-! ## Theorems about the transport kinds, the health check and the TLS configuration -/

namespace Proxy

/-- C12: `transportTypeFromConn` depends on two facts only, whether the pooled
connection is UDP-backed and whether the transport has a TLS config: a UDP-backed
connection is `typeUDP` with or without a TLS config; any other connection is `typeTLS`
exactly when `tlsConfig` is non-nil and `typeTCP` otherwise. -/
theorem transportTypeFromConn_classifies (t : Transport) (pc : persistConn) :
    (pc.c = NetConn.UDPConn → t.transportTypeFromConn pc = typeUDP)
      ∧ (pc.c ≠ NetConn.UDPConn →
          (t.transportTypeFromConn pc = typeTLS ↔ t.tlsConfig ≠ none)
            ∧ (t.transportTypeFromConn pc = typeTCP ↔ t.tlsConfig = none))
      ∧ ∀ (t2 : Transport) (pc2 : persistConn),
          (pc.c = NetConn.UDPConn ↔ pc2.c = NetConn.UDPConn) →
          (t.tlsConfig = none ↔ t2.tlsConfig = none) →
          t.transportTypeFromConn pc = t2.transportTypeFromConn pc2 := by
  refine ⟨?_, ?_, ?_⟩
  · intro h
    simp [Transport.transportTypeFromConn, h]
  · intro h
    by_cases hc : t.tlsConfig = none
    · simp [Transport.transportTypeFromConn, h, hc, typeTCP, typeTLS]
    · simp [Transport.transportTypeFromConn, h, hc, typeTCP, typeTLS]
  · intro t2 pc2 hudp htls
    unfold Transport.transportTypeFromConn
    by_cases h1 : pc.c = NetConn.UDPConn
    · simp [h1, hudp.mp h1]
    · have h2 : ¬ pc2.c = NetConn.UDPConn := fun h => h1 (hudp.mpr h)
      by_cases hc : t.tlsConfig = none
      · simp [h1, h2, hc, htls.mp hc]
      · have hc2 : ¬ t2.tlsConfig = none := fun h => hc (htls.mpr h)
        simp [h1, h2, hc, hc2]

theorem transportTypeFromConn_classifies_witness :
    ({ addr := "9.9.9.9:853", expire := 10, tlsConfig := some { ServerName := "dns.quad9.net" } }
        : Transport).transportTypeFromConn { c := NetConn.UDPConn, used := 0 } = typeUDP
      ∧ (({ addr := "9.9.9.9:853", expire := 10,
            tlsConfig := some { ServerName := "dns.quad9.net" } }
          : Transport).transportTypeFromConn { c := NetConn.TCPConn, used := 0 } = typeTLS
        ↔ (some { ServerName := "dns.quad9.net" } : Option TLSConfig) ≠ none) :=
  ⟨(transportTypeFromConn_classifies
      { addr := "9.9.9.9:853", expire := 10, tlsConfig := some { ServerName := "dns.quad9.net" } }
      { c := NetConn.UDPConn, used := 0 }).1 rfl,
    ((transportTypeFromConn_classifies
      { addr := "9.9.9.9:853", expire := 10, tlsConfig := some { ServerName := "dns.quad9.net" } }
      { c := NetConn.TCPConn, used := 0 }).2.1 (by decide)).1⟩

/-- C13: with no health checker attached (`health` is nil) `Healthcheck` only logs the
warning: it submits no probe and leaves the proxy, and so the failure count, as it was;
with a health checker attached it leaves the proxy as it was and submits exactly one
probe, whose body calls `Check` of that health checker on this proxy. -/
theorem healthcheck_nil_or_one_probe (p : DOHProxy) :
    (p.health = none →
        p.Healthcheck.1 = p ∧ p.Healthcheck.1.Fails = p.Fails
          ∧ p.Healthcheck.2 = [Call.logWarning "No healthchecker"]
          ∧ probesSubmitted p.Healthcheck.2 = [])
      ∧ ∀ h : HealthChecker, p.health = some h →
          p.Healthcheck.1 = p
            ∧ p.Healthcheck.2 = [Call.probeDo { proxy := p }]
            ∧ probesSubmitted p.Healthcheck.2 = [{ proxy := p }]
            ∧ ProbeFunc.body { proxy := p } = some (h, p) := by
  refine ⟨?_, ?_⟩
  · intro hnil
    simp [DOHProxy.Healthcheck, hnil, probesSubmitted]
  · intro h hsome
    simp [DOHProxy.Healthcheck, hsome, probesSubmitted, ProbeFunc.body]

theorem healthcheck_nil_or_one_probe_witness :
    ({ NewDOHProxy "a" "dns.example:443" "tcp" with health := none } : DOHProxy).health = none
      ∧ probesSubmitted
          ({ NewDOHProxy "a" "dns.example:443" "tcp" with
              health := none } : DOHProxy).Healthcheck.2 = []
      ∧ probesSubmitted (NewDOHProxy "a" "dns.example:443" "tcp").Healthcheck.2
          = [{ proxy := NewDOHProxy "a" "dns.example:443" "tcp" }] :=
  ⟨rfl,
    ((healthcheck_nil_or_one_probe
      { NewDOHProxy "a" "dns.example:443" "tcp" with health := none }).1 rfl).2.2.2,
    ((healthcheck_nil_or_one_probe (NewDOHProxy "a" "dns.example:443" "tcp")).2
      { proxyName := "a", transport := "tcp", recursionDesired := true, domain := ".",
        tlsConfig := none } rfl).2.2.1⟩

/-- C14 (the code at the failing input): in a state with no health checker attached,
`SetTLSConfig(cfg)` panics on `p.health.SetTLSConfig(cfg)` before
`p.transport.TLSClientConfig = cfg` is reached, for every `cfg` and whatever
`http2.ConfigureTransport` does; `Healthcheck` in the same state returns after its nil
guard. -/
theorem setTLSConfig_nil_health_panics :
    (∀ (configureTransport : HTTPTransport → HTTPTransport) (cfg : Option TLSConfig),
        ({ NewDOHProxy "a" "dns.example:443" "tcp" with
            health := none } : DOHProxy).SetTLSConfig configureTransport cfg = none)
      ∧ ({ NewDOHProxy "a" "dns.example:443" "tcp" with health := none } : DOHProxy).SetTLSConfig
          (fun t => t) (some { ServerName := "dns.example" }) = none
      ∧ ({ NewDOHProxy "a" "dns.example:443" "tcp" with health := none } : DOHProxy).Healthcheck
          = ({ NewDOHProxy "a" "dns.example:443" "tcp" with health := none },
              [Call.logWarning "No healthchecker"]) :=
  ⟨fun _ _ => rfl, rfl, rfl⟩

/-- With a health checker attached and a non-nil TLS config `cfg`, `SetTLSConfig(cfg)`
returns, the health checker has received `cfg` and, provided `http2.ConfigureTransport`
keeps the config pointer of a transport that has one, the transport holds the same
`cfg`; the failure count, the address and the read timeout are unchanged. -/
theorem setTLSConfig_propagates (configureTransport : HTTPTransport → HTTPTransport)
    (p : DOHProxy) (h : HealthChecker) (cfg : TLSConfig)
    (hh : p.health = some h)
    (hkeep : ∀ (t : HTTPTransport) (c : TLSConfig),
      t.TLSClientConfig = some c → (configureTransport t).TLSClientConfig = some c) :
    ∃ q : DOHProxy, p.SetTLSConfig configureTransport (some cfg) = some q
      ∧ q.health = some (h.SetTLSConfig (some cfg))
      ∧ (∃ h2 : HealthChecker, q.health = some h2 ∧ h2.tlsConfig = some cfg)
      ∧ q.transport.TLSClientConfig = some cfg
      ∧ q.Fails = p.Fails ∧ q.addr = p.addr ∧ q.readTimeout = p.readTimeout := by
  have hq : p.SetTLSConfig configureTransport (some cfg)
      = some
          { p with
            health := some (h.SetTLSConfig (some cfg))
            transport := configureTransport { p.transport with TLSClientConfig := some cfg } } := by
    simp only [DOHProxy.SetTLSConfig, hh]
  refine ⟨_, hq, rfl, ⟨h.SetTLSConfig (some cfg), rfl, rfl⟩, ?_, rfl, rfl, rfl⟩
  exact hkeep _ cfg rfl

theorem setTLSConfig_propagates_witness :
    ∃ q : DOHProxy,
      (NewDOHProxy "a" "dns.example:443" "tcp").SetTLSConfig (fun t => t)
          (some { ServerName := "dns.example" }) = some q
        ∧ q.health = some
            (HealthChecker.SetTLSConfig
              { proxyName := "a", transport := "tcp", recursionDesired := true, domain := ".",
                tlsConfig := none }
              (some { ServerName := "dns.example" }))
        ∧ (∃ h2 : HealthChecker, q.health = some h2
            ∧ h2.tlsConfig = some { ServerName := "dns.example" })
        ∧ q.transport.TLSClientConfig = some { ServerName := "dns.example" }
        ∧ q.Fails = (NewDOHProxy "a" "dns.example:443" "tcp").Fails
        ∧ q.addr = (NewDOHProxy "a" "dns.example:443" "tcp").addr
        ∧ q.readTimeout = (NewDOHProxy "a" "dns.example:443" "tcp").readTimeout :=
  setTLSConfig_propagates (fun t => t) (NewDOHProxy "a" "dns.example:443" "tcp")
    { proxyName := "a", transport := "tcp", recursionDesired := true, domain := ".",
      tlsConfig := none }
    { ServerName := "dns.example" } rfl (fun _ _ hc => hc)

end Proxy

/-! ## Theorems about failures, down-marking and concurrent increments -/

namespace Proxy

theorem incState_single_caller (p : DOHProxy) :
    ((IncState.init p.fails 1).run [0, 0]).fails = p.IncrementFails.fails := by
  simp only [IncState.init, IncState.run, IncState.step, List.replicate,
    List.getElem?_cons_zero, List.set_cons_zero, DOHProxy.IncrementFails]
  split <;> rfl

theorem incrementFails_ge (p : DOHProxy) : p.fails ≤ p.IncrementFails.fails := by
  unfold DOHProxy.IncrementFails
  by_cases hg : p.fails > (p.fails + 1) % 2 ^ 32
  · simp only [hg, if_true]
    exact Nat.le_refl _
  · simp only [hg, if_false]
    omega

theorem down_eq_true_iff (p : DOHProxy) (maxfails : Nat) :
    p.Down maxfails = true ↔ (0 < maxfails ∧ maxfails < p.fails) := by
  unfold DOHProxy.Down
  by_cases h0 : maxfails = 0
  · simp [h0]
  · simp [h0]
    omega

/-- C15 (the code at the failing input): two concurrent `IncrementFails` calls on the
count `2^32 - 2`, interleaved load, load, add, add: both callers read `2^32 - 2`, both
pass the overflow guard, and the second `atomic.AddUint32` wraps the counter to 0,
below the count it started from.  Run one after the other, the same two calls leave
`2^32 - 1`. -/
theorem incrementFails_race_wraps :
    (IncState.init 4294967294 2).run [0, 1, 0, 1]
        = { fails := 0, callers := [IncCaller.finished, IncCaller.finished] }
      ∧ ((IncState.init 4294967294 2).run [0, 1, 0, 1]).fails < 4294967294
      ∧ (IncState.init 4294967294 2).run [0, 0, 1, 1]
        = { fails := 4294967295, callers := [IncCaller.finished, IncCaller.finished] } := by
  decide

/-- C16: if `Down(maxfails)` is true before a sequential `IncrementFails`, it is true
after it as well, for every failure count and every `maxfails`; `ResetFails` is what makes
it false again. -/
theorem down_stable_under_incrementFails (p : DOHProxy) (maxfails : Nat)
    (h : p.Down maxfails = true) :
    p.IncrementFails.Down maxfails = true ∧ p.ResetFails.Down maxfails = false := by
  have hd := (down_eq_true_iff p maxfails).mp h
  have hge := incrementFails_ge p
  refine ⟨(down_eq_true_iff _ maxfails).mpr ⟨hd.1, by omega⟩, ?_⟩
  cases hr : p.ResetFails.Down maxfails with
  | false => rfl
  | true =>
    have h2 := (down_eq_true_iff _ maxfails).mp hr
    have h0 : p.ResetFails.fails = 0 := rfl
    omega

theorem down_stable_under_incrementFails_witness :
    ({ NewDOHProxy "a" "dns.example:443" "tcp" with
        fails := 4294967295 } : DOHProxy).Down 2 = true
      ∧ ({ NewDOHProxy "a" "dns.example:443" "tcp" with
          fails := 4294967295 } : DOHProxy).IncrementFails.Down 2 = true
      ∧ ({ NewDOHProxy "a" "dns.example:443" "tcp" with
          fails := 4294967295 } : DOHProxy).ResetFails.Down 2 = false :=
  ⟨by decide,
    down_stable_under_incrementFails
      { NewDOHProxy "a" "dns.example:443" "tcp" with fails := 4294967295 } 2 (by decide)⟩

/-- C17: for `maxfails > 0` and every `k`, after `ResetFails` and `k` sequential
`IncrementFails` calls, `Down(maxfails)` is true exactly when `min(k, 2^32 - 1) > maxfails`;
so for `maxfails < 2^32 - 1` the proxy is still up after `maxfails` failures and down after
`maxfails + 1`; and `Down(2^32 - 1)` is false in every state with a `uint32` count. -/
theorem down_after_k_failures (p : DOHProxy) (maxfails k : Nat) (hm : 0 < maxfails) :
    ((incrementFailsN k p.ResetFails).Down maxfails = true ↔ min k (2 ^ 32 - 1) > maxfails)
      ∧ (maxfails < 2 ^ 32 - 1 →
          (incrementFailsN maxfails p.ResetFails).Down maxfails = false
            ∧ (incrementFailsN (maxfails + 1) p.ResetFails).Down maxfails = true)
      ∧ ∀ q : DOHProxy, q.Fails < 2 ^ 32 → q.Down (2 ^ 32 - 1) = false := by
  have h0 : p.ResetFails.fails = 0 := rfl
  have hcount : ∀ n, (incrementFailsN n p.ResetFails).fails = min n (2 ^ 32 - 1) := by
    intro n
    rw [incrementFailsN_fails n p.ResetFails (by rw [h0]; omega), h0, Nat.zero_add]
  have hiff : ∀ n, ((incrementFailsN n p.ResetFails).Down maxfails = true
      ↔ min n (2 ^ 32 - 1) > maxfails) := by
    intro n
    rw [down_eq_true_iff, hcount n]
    constructor
    · intro h; exact h.2
    · intro h; exact ⟨hm, h⟩
  refine ⟨hiff k, ?_, ?_⟩
  · intro hlt
    refine ⟨?_, (hiff (maxfails + 1)).mpr (by omega)⟩
    cases hr : (incrementFailsN maxfails p.ResetFails).Down maxfails with
    | false => rfl
    | true =>
      have h2 := (hiff maxfails).mp hr
      omega
  · intro q hq
    cases hr : q.Down (2 ^ 32 - 1) with
    | false => rfl
    | true =>
      have h2 := (down_eq_true_iff q (2 ^ 32 - 1)).mp hr
      simp only [DOHProxy.Fails] at hq
      omega

theorem down_after_k_failures_witness :
    0 < 2
      ∧ (incrementFailsN 2 (NewDOHProxy "a" "dns.example:443" "tcp").ResetFails).Down 2 = false
      ∧ (incrementFailsN (2 + 1)
          (NewDOHProxy "a" "dns.example:443" "tcp").ResetFails).Down 2 = true :=
  ⟨by decide,
    (down_after_k_failures (NewDOHProxy "a" "dns.example:443" "tcp") 2 0 (by decide)).2.1
      (by decide)⟩

/-- C19: `stringToTransportType` maps "udp" to `typeUDP`, "tcp" to `typeTCP`, "tcp-tls"
to `typeTLS` and every other string, the empty string and "TCP" among them, to
`typeUDP`; it is total, the three recognised names map to three distinct kinds, and
`typeTotalCount` is never returned. -/
theorem stringToTransportType_total (s : String) :
    stringToTransportType "udp" = typeUDP
      ∧ stringToTransportType "tcp" = typeTCP
      ∧ stringToTransportType "tcp-tls" = typeTLS
      ∧ (s ≠ "udp" → s ≠ "tcp" → s ≠ "tcp-tls" → stringToTransportType s = typeUDP)
      ∧ stringToTransportType "" = typeUDP
      ∧ stringToTransportType "TCP" = typeUDP
      ∧ (typeUDP ≠ typeTCP ∧ typeTCP ≠ typeTLS ∧ typeUDP ≠ typeTLS)
      ∧ (stringToTransportType s = typeUDP ∨ stringToTransportType s = typeTCP
          ∨ stringToTransportType s = typeTLS)
      ∧ stringToTransportType s ≠ typeTotalCount := by
  have hcases : stringToTransportType s = typeUDP ∨ stringToTransportType s = typeTCP
      ∨ stringToTransportType s = typeTLS := by
    unfold stringToTransportType
    by_cases h1 : s = "udp"
    · simp [h1]
    · by_cases h2 : s = "tcp"
      · simp [h2]
      · by_cases h3 : s = "tcp-tls"
        · simp [h3]
        · simp [h1, h2, h3]
  refine ⟨by decide, by decide, by decide, ?_, by decide, by decide, by decide, hcases, ?_⟩
  · intro h1 h2 h3
    simp [stringToTransportType, h1, h2, h3]
  · rcases hcases with h | h | h <;> rw [h] <;> decide

theorem stringToTransportType_total_witness :
    ("https" ≠ "udp" ∧ "https" ≠ "tcp" ∧ "https" ≠ "tcp-tls")
      ∧ stringToTransportType "https" = typeUDP :=
  ⟨by decide,
    (stringToTransportType_total "https").2.2.2.1 (by decide) (by decide) (by decide)⟩

end Proxy
